import Mathlib

/-
Verification of the heatmap-calendar service.

This file gives a shallow embedding, in Lean 4, of the load/capacity
aggregation core of the heatmap-calendar Go service, and proves (or refutes)
the behavioural claims made about it by its specification.

Modelling conventions:

* `time.Time` values are always UTC midnights in this code base; they are
  modelled as `Int` day numbers (days since 1970-01-01).  `Truncate(24h)` and
  the `time.Date(..., time.UTC)` normalisations are the identity on this
  representation, and `AddDate(0, 0, 1)` is `(· + 1)`.  `AddDate(0, m, 0)` is
  `goAddMonths` below, which reproduces Go's calendar normalisation.
* `float64` loads and capacities are modelled as exact rationals `ℚ`.
* The PostgreSQL store is modelled as an explicit `State` of table rows; SQL
  queries become list traversals with the same join/filter/aggregate shape as
  the statements in the repository layer, and each mutating call returns the
  new `State` (plus its result or error).  Error returns of the Go functions
  become `Option`/pair-with-`Option` results; the payload of an error message
  is irrelevant to every claim and is kept as a short fixed string.
* Constraint-violation failure paths of the store (duplicate primary key in a
  single statement batch, foreign keys) are outside the claims and are not
  modelled unless a claim's hypotheses mention them.
-/

namespace HeatmapCal

/-- Entity type enumeration, `models.EntityType` (`"person"` / `"group"`). -/
inductive EntityType where
  | person
  | group
deriving DecidableEq

/-- Row of the `entities` table (`models.Entity`).  `created_at` is read by no
modelled code path and is omitted. -/
structure Entity where
  id : String
  title : String
  type : EntityType
  employeeID : Option String
  defaultCapacity : ℚ
deriving DecidableEq

/-- Row of the `group_members` table. -/
structure GroupMember where
  groupID : String
  personEmail : String
deriving DecidableEq

/-- Row of the `capacity_overrides` table (`models.CapacityOverride`). -/
structure CapacityOverride where
  entityID : String
  date : Int
  capacity : ℚ
deriving DecidableEq

/-- Row of the `loads` table.  Note the schema in `RunMigrations` has columns
`id, external_id, title, source, date` and no `url` column. -/
structure Load where
  id : Int
  externalID : Option String
  title : String
  source : Option String
  date : Int
deriving DecidableEq

/-- Row of the `load_assignments` table (`models.LoadAssignment`). -/
structure Assignment where
  loadID : Int
  personEmail : String
  weight : ℚ
deriving DecidableEq

/-- The in-memory `models.Load` value handed by the service layer to
`LoadRepository.UpsertByExternalID`.  Unlike the table row it carries a `url`
field (`models.Load.URL`); the repository's INSERT/UPDATE statement mentions
only `external_id, title, source, date`. -/
structure LoadInput where
  externalID : Option String
  title : String
  source : Option String
  url : Option String
  date : Int
deriving DecidableEq

/-- The relational store: one list of rows per table, plus the next value of
the `loads.id` SERIAL sequence. -/
structure State where
  entities : List Entity
  members : List GroupMember
  overrides : List CapacityOverride
  loads : List Load
  assignments : List Assignment
  nextLoadID : Int
deriving DecidableEq

/-! ### Calendar arithmetic

Go's `time` package uses the proleptic Gregorian calendar.  `daysFromCivilNorm`
and `civilFromDays` are the standard exact conversions between a civil date and
a day number (epoch 1970-01-01 = day 0); `daysFromCivil` additionally performs
Go's month normalisation (months outside 1..12 roll into the year, and the day
of month is added as a plain day offset), which is exactly the behaviour of
`time.Date` / `AddDate`. -/

/-- Day number of a civil date with month already in 1..12 (day of month may be
out of range; it contributes as a plain offset, as in Go's normalisation). -/
def daysFromCivilNorm (y m d : Int) : Int :=
  let y' := if m ≤ 2 then y - 1 else y
  let era := Int.fdiv y' 400
  let yoe := y' - era * 400
  let mp := Int.emod (m + 9) 12
  let doy := Int.fdiv (153 * mp + 2) 5 + d - 1
  let doe := yoe * 365 + Int.fdiv yoe 4 - Int.fdiv yoe 100 + doy
  era * 146097 + doe - 719468

/-- Day number of a civil date with an arbitrary (possibly out-of-range) month,
normalised the way `time.Date` does. -/
def daysFromCivil (y m d : Int) : Int :=
  daysFromCivilNorm (y + Int.fdiv (m - 1) 12) (Int.emod (m - 1) 12 + 1) d

/-- Civil date (year, month, day) of a day number. -/
def civilFromDays (z : Int) : Int × Int × Int :=
  let z' := z + 719468
  let era := Int.fdiv z' 146097
  let doe := z' - era * 146097
  let yoe := Int.fdiv (doe - Int.fdiv doe 1460 + Int.fdiv doe 36524 - Int.fdiv doe 146096) 365
  let y := yoe + era * 400
  let doy := doe - (365 * yoe + Int.fdiv yoe 4 - Int.fdiv yoe 100)
  let mp := Int.fdiv (5 * doy + 2) 153
  let d := doy - Int.fdiv (153 * mp + 2) 5 + 1
  let m := if mp < 10 then mp + 3 else mp - 9
  (if m ≤ 2 then y + 1 else y, m, d)

/-- Go's `t.AddDate(0, months, 0)` on a UTC-midnight time `t`. -/
def goAddMonths (t months : Int) : Int :=
  match civilFromDays t with
  | (y, m, d) => daysFromCivil y (m + months) d

/-- Leap year predicate of the Gregorian calendar. -/
def isLeapYear (y : Nat) : Bool :=
  (y % 4 == 0 && y % 100 != 0) || y % 400 == 0

/-- Number of days of month `m` of year `y`. -/
def daysInMonth (y m : Nat) : Nat :=
  if m = 2 then (if isLeapYear y then 29 else 28)
  else if m = 4 ∨ m = 6 ∨ m = 9 ∨ m = 11 then 30
  else 31

/-- Splits a character list on the dash separator (the shape of Go's
reference layout `"2006-01-02"`). -/
def splitOnDash : List Char → List (List Char)
  | [] => [[]]
  | c :: rest =>
    if c = '-' then [] :: splitOnDash rest
    else
      match splitOnDash rest with
      | [] => [[c]]
      | g :: gs => (c :: g) :: gs

/-- Decimal value of a digit list. -/
def digitsToNat (cs : List Char) : Nat :=
  cs.foldl (fun n c => n * 10 + (c.toNat - 48)) 0

/-- Go's `time.Parse("2006-01-02", str)`: accepts exactly `YYYY-MM-DD` with a
calendar-valid month and day, yielding the UTC-midnight day number. -/
def parseDate (str : String) : Option Int :=
  match splitOnDash str.data with
  | [ys, ms, ds] =>
    if ys.length = 4 ∧ ms.length = 2 ∧ ds.length = 2 ∧
       (ys ++ ms ++ ds).all Char.isDigit then
      let y := digitsToNat ys
      let m := digitsToNat ms
      let d := digitsToNat ds
      if 1 ≤ m ∧ m ≤ 12 ∧ 1 ≤ d ∧ d ≤ daysInMonth y m then
        some (daysFromCivilNorm (y : Int) (m : Int) (d : Int))
      else none
    else none
  | _ => none

/-- The loop `for d := startDate; !d.After(endDate); d = d.AddDate(0, 0, 1)`:
`dayRangeAux n s` is `n` consecutive days starting at `s`. -/
def dayRangeAux : Nat → Int → List Int
  | 0, _ => []
  | n + 1, start => start :: dayRangeAux n (start + 1)

/-- All day numbers from `start` to `endD`, both inclusive (empty when
`endD < start`), in the order the Go loops visit them. -/
def dayRange (start endD : Int) : List Int :=
  dayRangeAux (endD + 1 - start).toNat start

/-! ### Heatmap colour thresholding -/

/-- The function `getHeatmapColor` of `src/internal/service/heatmap.go`
(lines 120–145), verbatim: zero-capacity override cases first, then the
strict-greater-than ladder on `ratio = load / capacity`. -/
def getHeatmapColor (load capacity : ℚ) : String :=
  if capacity = 0 then
    if 0 < load then "#8B0000"   -- Blood red - any load with zero capacity
    else "#e5e7eb"               -- Gray for zero capacity, zero load
  else
    let ratio := load / capacity
    if 1 < ratio then "#8B0000"         -- Blood red - overloaded
    else if 0.8 < ratio then "#dc2626"  -- Red - near capacity
    else if 0.6 < ratio then "#f97316"  -- Orange
    else if 0.4 < ratio then "#fbbf24"  -- Yellow/Amber
    else if 0.2 < ratio then "#a3e635"  -- Lime green
    else if 0 < ratio then "#22c55e"    -- Green - low load
    else "#e5e7eb"                      -- Gray - no load

/-- The colour ladder exactly as the specification's table §4.3 words it, as a
function of the ratio alone (refinement target for claim C1; this definition
follows the spec's words, not the source). -/
def ratioColor (r : ℚ) : String :=
  if 1 < r then "#8B0000"
  else if 0.8 < r then "#dc2626"
  else if 0.6 < r then "#f97316"
  else if 0.4 < r then "#fbbf24"
  else if 0.2 < r then "#a3e635"
  else if 0 < r then "#22c55e"
  else "#e5e7eb"

/-- Severity index of each colour bucket, ordered by visual intensity
(gray < green < lime < amber < orange < red < blood red), used to state the
monotonicity part of claim C1. -/
def colorLevel (c : String) : Nat :=
  if c = "#e5e7eb" then 0
  else if c = "#22c55e" then 1
  else if c = "#a3e635" then 2
  else if c = "#fbbf24" then 3
  else if c = "#f97316" then 4
  else if c = "#dc2626" then 5
  else 6

/-! ### Repository layer: lookups and aggregation queries -/

/-- The query `SELECT ... FROM entities WHERE id = $1` of
`EntityRepository.GetByID` (`ErrEntityNotFound` becomes `none`). -/
def findEntity (s : State) (id : String) : Option Entity :=
  s.entities.find? (fun e => e.id == id)

/-- The query `SELECT EXISTS(SELECT 1 FROM entities WHERE id = $1)` of
`EntityRepository.Exists`. -/
def entityExists (s : State) (id : String) : Bool :=
  s.entities.any (fun e => e.id == id)

/-- The query `SELECT person_email FROM group_members WHERE group_id = $1` of
`GroupRepository.GetMembers`. -/
def membersOf (s : State) (groupID : String) : List String :=
  (s.members.filter (fun gm => gm.groupID == groupID)).map (fun gm => gm.personEmail)

/-- The statement `DELETE FROM group_members WHERE group_id = $1 AND
person_email = $2` of `GroupRepository.RemoveMember`. -/
def removeMember (s : State) (groupID personEmail : String) : State :=
  { s with members :=
      s.members.filter (fun gm => ¬ (gm.groupID = groupID ∧ gm.personEmail = personEmail)) }

/-- Single-day single-person aggregate of `LoadRepository.GetPersonLoadForDate`
and the per-date groups of `GetPersonLoadForDateRange`:
`SUM(la.weight) FROM loads l JOIN load_assignments la ON l.id = la.load_id
WHERE la.person_email = $1 AND l.date = d` (`COALESCE(..., 0)` is the empty
sum). -/
def personLoadOnDate (s : State) (email : String) (d : Int) : ℚ :=
  (s.loads.map (fun l =>
    (s.assignments.map (fun a =>
      if l.id = a.loadID ∧ a.personEmail = email ∧ l.date = d then a.weight else 0)).sum)).sum

/-- Per-date group aggregate of `LoadRepository.GetGroupLoadForDateRange`:
`SUM(la.weight) FROM loads l JOIN load_assignments la ON l.id = la.load_id
JOIN group_members gm ON la.person_email = gm.person_email
WHERE gm.group_id = $1 AND l.date = d`. -/
def groupLoadOnDate (s : State) (groupID : String) (d : Int) : ℚ :=
  (s.loads.map (fun l =>
    (s.assignments.map (fun a =>
      (s.members.map (fun gm =>
        if l.id = a.loadID ∧ a.personEmail = gm.personEmail ∧
           gm.groupID = groupID ∧ l.date = d then a.weight else 0)).sum)).sum)).sum

/-- The date-keyed map built by `GetPersonLoadForDateRange` (dates with no rows
are absent from the Go map and look up as `0`, which coincides with the empty
sum; dates outside `BETWEEN start AND end` are likewise absent). -/
def getPersonLoadForDateRange (s : State) (email : String) (start endD : Int) : Int → ℚ :=
  fun d => if start ≤ d ∧ d ≤ endD then personLoadOnDate s email d else 0

/-- The date-keyed map built by `GetGroupLoadForDateRange`. -/
def getGroupLoadForDateRange (s : State) (groupID : String) (start endD : Int) : Int → ℚ :=
  fun d => if start ≤ d ∧ d ≤ endD then groupLoadOnDate s groupID d else 0

/-- The single-date query of `LoadRepository.GetPersonLoadForDate` (returns 0,
never an error, when no assignments exist). -/
def getPersonLoadForDate (s : State) (email : String) (d : Int) : ℚ :=
  personLoadOnDate s email d

/-- The lookup of `CapacityRepository.GetEffectiveCapacity`: the override for
`(entityID, date)` if present, otherwise the entity's `default_capacity`;
`none` when the entity itself is missing. -/
def getEffectiveCapacity (s : State) (entityID : String) (d : Int) : Option ℚ :=
  match s.overrides.find? (fun o => o.entityID == entityID && o.date == d) with
  | some o => some o.capacity
  | none => (findEntity s entityID).map (fun e => e.defaultCapacity)

/-- The query of `CapacityRepository.GetOverridesRange`:
`SELECT ... FROM capacity_overrides WHERE entity_id = $1 AND date BETWEEN $2
AND $3 ORDER BY date`.  The `(entity_id, date)` primary key makes at most one
row per date, so the `ORDER BY` does not affect the map overlay below and the
table order is kept. -/
def getOverridesRange (s : State) (entityID : String) (start endD : Int) :
    List CapacityOverride :=
  s.overrides.filter (fun o =>
    o.entityID == entityID && decide (start ≤ o.date) && decide (o.date ≤ endD))

/-- Insertion into a Go `map[time.Time]float64`, modelled as a partial function
from day numbers. -/
def mapInsert (m : Int → Option ℚ) (k : Int) (v : ℚ) : Int → Option ℚ :=
  fun d => if d = k then some v else m d

/-- The function `CapacityRepository.GetCapacitiesForRange`
(`src/unnamed/part_004`, lines 303–332): read the default capacity (error when
the entity row is missing), initialise every day of the inclusive range to it,
then overlay the overrides found in the range. -/
def getCapacitiesForRange (s : State) (entityID : String) (start endD : Int) :
    Option (Int → Option ℚ) :=
  match findEntity s entityID with
  | none => none
  | some e =>
    let init := (dayRange start endD).foldl
      (fun m d => mapInsert m d e.defaultCapacity) (fun _ => none)
    some ((getOverridesRange s entityID start endD).foldl
      (fun m o => mapInsert m o.date o.capacity) init)

/-! ### Heatmap service -/

/-- One element of `models.HeatmapData.Days` (`models.HeatmapDay`). -/
structure HeatmapDay where
  date : Int
  load : ℚ
  capacity : ℚ
  color : String
deriving DecidableEq

/-- Result of `HeatmapService.GetHeatmapData` (`models.HeatmapData`). -/
structure HeatmapData where
  entity : Entity
  days : List HeatmapDay
deriving DecidableEq

/-- The dispatch of `GetHeatmapData` on the entity's `type` field between the
person and the group load query. -/
def entityLoads (s : State) (entityID : String) (ty : EntityType) (start endD : Int) :
    Int → ℚ :=
  match ty with
  | EntityType.person => getPersonLoadForDateRange s entityID start endD
  | EntityType.group => getGroupLoadForDateRange s entityID start endD

/-- The day loop of `GetHeatmapData`: one `HeatmapDay` per day of the stepped
range, looking up load (0 when absent) and capacity (0 when absent) and
attaching the thresholded colour. -/
def buildHeatmapDays (loads : Int → ℚ) (caps : Int → Option ℚ) (start endD : Int) :
    List HeatmapDay :=
  (dayRange start endD).map (fun d =>
    { date := d
      load := loads d
      capacity := (caps d).getD 0
      color := getHeatmapColor (loads d) ((caps d).getD 0) })

/-- The function `HeatmapService.GetHeatmapData`
(`src/internal/service/heatmap.go`, lines 34–86).  `today` is the current UTC
calendar date at request time, passed explicitly. -/
def getHeatmapData (s : State) (entityID : String) (today : Int) : Option HeatmapData :=
  match findEntity s entityID with
  | none => none
  | some e =>
    let startDate := goAddMonths today (-1)
    let endDate := goAddMonths today 6
    match getCapacitiesForRange s entityID startDate endDate with
    | none => none
    | some capacities =>
      some { entity := e,
             days := buildHeatmapDays (entityLoads s entityID e.type startDate endDate)
               capacities startDate endDate }

/-- Claim-statement helper: "the entity has no assignments on day `d`" — for a
person, no assignment row of theirs joins a load dated `d`; for a group, no
assignment of any current member joins a load dated `d`. -/
def entityHasNoAssignmentsOn (s : State) (entityID : String) (ty : EntityType) (d : Int) : Prop :=
  match ty with
  | EntityType.person =>
      ∀ a ∈ s.assignments, ∀ l ∈ s.loads,
        l.id = a.loadID → l.date = d → a.personEmail ≠ entityID
  | EntityType.group =>
      ∀ a ∈ s.assignments, ∀ l ∈ s.loads,
        l.id = a.loadID → l.date = d → a.personEmail ∉ membersOf s entityID

/-! ### Overload alert dispatcher -/

/-- The JSON body of `models.WebhookAlertPayload` (the human-readable
`message` string is presentation-only formatting of these same fields and is
omitted). -/
structure AlertPayload where
  personEmail : String
  date : Int
  load : ℚ
  capacity : ℚ
deriving DecidableEq

/-- The decision logic of `WebhookService.CheckAndAlert`
(`src/unnamed/part_003`, lines 40–90): `some payload` exactly when the POST to
the webhook destination is attempted.  The Go guard is
`date.Before(time.Now().Truncate(24h))`, i.e. skip only dates strictly before
`today`. -/
def checkAndAlert (webhookURL : String) (s : State) (personEmail : String)
    (date today : Int) : Option AlertPayload :=
  if date < today then none
  else if webhookURL = "" then none
  else
    let load := getPersonLoadForDate s personEmail date
    match getEffectiveCapacity s personEmail date with
    | none => none
    | some capacity =>
      if load ≤ capacity then none
      else some { personEmail := personEmail, date := date, load := load, capacity := capacity }

/-! ### Load repository mutations -/

/-- An assignment row as inserted by
`INSERT INTO load_assignments (load_id, person_email, weight) VALUES
($1, $2, $3)`: the definitive load id with the request's email and weight. -/
def withLoadID (k : Int) (a : Assignment) : Assignment :=
  { loadID := k, personEmail := a.personEmail, weight := a.weight }

/-- The transaction body of `LoadRepository.UpsertByExternalID` after the load
row is resolved: `DELETE FROM load_assignments WHERE load_id = $1` followed by
one INSERT per given assignment. -/
def replaceAssignments (s : State) (loadID : Int) (asgs : List Assignment) : State :=
  { s with assignments :=
      s.assignments.filter (fun a => ¬ a.loadID = loadID)
        ++ asgs.map (withLoadID loadID) }

/-- The load-row statement of `LoadRepository.UpsertByExternalID`:
`INSERT INTO loads (external_id, title, source, date) VALUES ... ON CONFLICT
(external_id) DO UPDATE SET title, source, date RETURNING id`.  SQL NULLs
never conflict, so a null external id always inserts.  The `url` field of the
given `LoadInput` is mentioned by no column list. -/
def upsertLoadRow (s : State) (ld : LoadInput) : State × Int :=
  let conflict : Option Load :=
    match ld.externalID with
    | some ext => s.loads.find? (fun l => l.externalID == some ext)
    | none => none
  match conflict with
  | some l0 =>
    ({ s with loads := s.loads.map (fun (l : Load) =>
        if l.id = l0.id then
          { l with title := ld.title, source := ld.source, date := ld.date }
        else l) }, l0.id)
  | none =>
    ({ s with
        loads := s.loads ++ [({ id := s.nextLoadID, externalID := ld.externalID,
                                title := ld.title, source := ld.source,
                                date := ld.date } : Load)],
        nextLoadID := s.nextLoadID + 1 }, s.nextLoadID)

/-- The function `LoadRepository.UpsertByExternalID`
(`src/internal/repository/load.go`, lines 21–67): one transaction upserting
the load row and then fully replacing its assignments. -/
def upsertByExternalID (s : State) (ld : LoadInput) (asgs : List Assignment) :
    State × Int :=
  let r := upsertLoadRow s ld
  (replaceAssignments r.1 r.2 asgs, r.2)

/-- The rows of the `loads` table carrying a given external id. -/
def loadsWithExt (s : State) (ext : String) : List Load :=
  s.loads.filter (fun l => l.externalID == some ext)

/-! ### Load service -/

/-- One element of `UpsertLoadRequest.Assignees` / `AddAssigneeRequest.Assignees`
(the validator tags on these structs are `required,email` on the address and
nothing on the weight). -/
structure AssigneeReq where
  email : String
  weight : ℚ
deriving DecidableEq

/-- The request body `models.UpsertLoadRequest`. -/
structure UpsertLoadRequest where
  externalID : String
  title : String
  source : String
  url : String
  date : String
  assignees : List AssigneeReq
deriving DecidableEq

/-- The assignee auto-creation loop of `LoadService.UpsertLoad` and
`LoadService.AddAssignees`: an unknown email is created as a person entity
with title = email and default capacity 5.0. -/
def autoCreateAssignees (s : State) (assignees : List AssigneeReq) : State :=
  assignees.foldl (fun st a =>
    if st.entities.any (fun e => e.id == a.email) then st
    else { st with entities := st.entities ++
      [{ id := a.email, title := a.email, type := EntityType.person,
         employeeID := none, defaultCapacity := 5 }] }) s

/-- The function `LoadService.UpsertLoad` (`src/internal/service/load.go`,
lines 31–94): parse the date, auto-create missing assignees, default a zero
weight to 1.0, and upsert by external id.  The background webhook dispatches
do not change the store and are modelled separately (`checkAndAlert`). -/
def upsertLoad (s : State) (req : UpsertLoadRequest) : State × Option Int :=
  match parseDate req.date with
  | none => (s, none)
  | some date =>
    let s1 := autoCreateAssignees s req.assignees
    let asgs := req.assignees.map (fun (a : AssigneeReq) =>
      ({ loadID := 0, personEmail := a.email,
         weight := if a.weight = 0 then 1 else a.weight } : Assignment))
    let r := upsertByExternalID s1
      { externalID := some req.externalID, title := req.title,
        source := some req.source, url := some req.url, date := date } asgs
    (r.1, some r.2)

/-- One element of `UpsertLoadByEmployeeIDRequest.Assignees`. -/
structure EmployeeAssigneeReq where
  employeeID : String
  weight : ℚ
deriving DecidableEq

/-- The request body `models.UpsertLoadByEmployeeIDRequest`. -/
structure UpsertLoadByEmployeeIDRequest where
  externalID : String
  title : String
  source : String
  url : String
  date : String
  assignees : List EmployeeAssigneeReq
deriving DecidableEq

/-- Modelled from the spec: `EntityRepository.GetByEmployeeID` is not under
`src/` (only its caller `LoadService.UpsertLoadByEmployeeID` is).  Spec §3:
"`employee_id`: optional secondary identifier for persons, used for an
alternate lookup path" — the entity whose `employee_id` matches. -/
def findEntityByEmployeeID (s : State) (employeeID : String) : Option Entity :=
  s.entities.find? (fun e => e.employeeID == some employeeID)

/-- The function `LoadService.UpsertLoadByEmployeeID`
(`src/internal/service/load.go`, lines 97–163): parse the date, resolve every
assignee's email through its employee id (any miss aborts with an error before
the upsert), default a zero weight to 1.0, and upsert by external id. -/
def upsertLoadByEmployeeID (s : State) (req : UpsertLoadByEmployeeIDRequest) :
    State × Option Int :=
  match parseDate req.date with
  | none => (s, none)
  | some date =>
    let resolved := req.assignees.map (fun a =>
      ((findEntityByEmployeeID s a.employeeID).map (fun e => e.id),
       if a.weight = 0 then 1 else a.weight))
    if resolved.all (fun r => r.1.isSome) then
      let asgs := resolved.map (fun r =>
        ({ loadID := 0, personEmail := r.1.getD "", weight := r.2 } : Assignment))
      let r := upsertByExternalID s
        { externalID := some req.externalID, title := req.title,
          source := some req.source, url := some req.url, date := date } asgs
      (r.1, some r.2)
    else (s, none)

/-- The request body `models.AddAssigneeRequest`. -/
structure AddAssigneeRequest where
  assignees : List AssigneeReq
deriving DecidableEq

/-- Modelled from the spec: `LoadRepository.AddAssignees` is not under `src/`
(only its service caller is).  Spec §6: "`AddAssignees(loadID, [{person,
weight}])`" adds the given assignments to the load — modelled as inserting the
rows. -/
def repoAddAssignees (s : State) (loadID : Int) (asgs : List Assignment) : State :=
  { s with assignments := s.assignments ++ asgs.map (withLoadID loadID) }

/-- The function `LoadService.AddAssignees` (`src/internal/service/load.go`,
lines 176–229): verify the load exists, auto-create missing assignees, default
a zero weight to 1.0, insert the assignments.  `false` models the "load not
found" error. -/
def addAssignees (s : State) (loadID : Int) (req : AddAssigneeRequest) :
    State × Bool :=
  match s.loads.find? (fun l => l.id == loadID) with
  | none => (s, false)
  | some _ =>
    let s1 := autoCreateAssignees s req.assignees
    let asgs := req.assignees.map (fun (a : AssigneeReq) =>
      ({ loadID := loadID, personEmail := a.email,
         weight := if a.weight = 0 then 1 else a.weight } : Assignment))
    (repoAddAssignees s1 loadID asgs, true)

/-! ### Capacity service -/

/-- The statement of `CapacityRepository.SetOverride`: INSERT with
`ON CONFLICT (entity_id, date) DO UPDATE SET capacity`. -/
def setOverride (s : State) (entityID : String) (d : Int) (c : ℚ) : State :=
  if s.overrides.any (fun o => o.entityID == entityID && o.date == d) then
    { s with overrides := s.overrides.map (fun o =>
        if o.entityID == entityID && o.date == d then { o with capacity := c } else o) }
  else
    { s with overrides := s.overrides ++ [{ entityID := entityID, date := d, capacity := c }] }

/-- The function `CapacityService.UpdateDefaultCapacity` over
`EntityRepository.UpdateDefaultCapacity`: reject a negative capacity, then
`UPDATE entities SET default_capacity = $2 WHERE id = $1` (zero rows affected
is `ErrEntityNotFound`). -/
def updateDefaultCapacity (s : State) (entityID : String) (c : ℚ) :
    State × Option String :=
  if c < 0 then (s, some "capacity cannot be negative")
  else if entityExists s entityID then
    ({ s with entities := s.entities.map (fun e =>
        if e.id == entityID then { e with defaultCapacity := c } else e) }, none)
  else (s, some "entity not found")

/-- The function `CapacityService.SetDateOverride`
(`src/internal/service/capacity.go`, lines 37–55): reject a negative capacity,
verify the entity exists, then set the override. -/
def setDateOverride (s : State) (entityID : String) (d : Int) (c : ℚ) :
    State × Option String :=
  if c < 0 then (s, some "capacity cannot be negative")
  else
    match findEntity s entityID with
    | none => (s, some "failed to verify entity")
    | some _ => (setOverride s entityID d c, none)

/-- One element of `UpdateCapacityRequest.DateOverrides` (the date is the raw
request string, parsed inside `UpdateCapacity`). -/
structure OverrideItem where
  date : String
  capacity : ℚ
deriving DecidableEq

/-- The request body `models.UpdateCapacityRequest`. -/
structure UpdateCapacityRequest where
  defaultCapacity : Option ℚ
  dateOverrides : List OverrideItem
deriving DecidableEq

/-- The override loop of `CapacityService.UpdateCapacity`: each entry is
parsed and applied in order; the first failure returns immediately, keeping
every mutation already made. -/
def applyOverrides (entityID : String) : State → List OverrideItem → State × Option String
  | s, [] => (s, none)
  | s, it :: rest =>
    match parseDate it.date with
    | none => (s, some "invalid date format")
    | some d =>
      match setDateOverride s entityID d it.capacity with
      | (s', some e) => (s', some e)
      | (s', none) => applyOverrides entityID s' rest

/-- The function `CapacityService.UpdateCapacity`
(`src/internal/service/capacity.go`, lines 82–103): update the default
capacity if provided, then process the date overrides in order. -/
def updateCapacity (s : State) (entityID : String) (req : UpdateCapacityRequest) :
    State × Option String :=
  match req.defaultCapacity with
  | none => applyOverrides entityID s req.dateOverrides
  | some c =>
    match updateDefaultCapacity s entityID c with
    | (s', some e) => (s', some e)
    | (s', none) => applyOverrides entityID s' req.dateOverrides

/-! ### Entity creation handler -/

/-- The request body `models.CreateEntityRequest` (`default_capacity` is a
plain `float64` with `omitempty`, so an omitted field arrives as 0). -/
structure CreateEntityRequest where
  id : String
  title : String
  type : EntityType
  employeeID : Option String
  defaultCapacity : ℚ
deriving DecidableEq

/-- The handler `APIHandler.CreateEntity` (`src/internal/service/capacity.go`,
lines 298–332): a requested capacity of 0 becomes 5.0, then
`EntityRepository.Create` inserts the row (`none` models the insert failing on
a duplicate primary key). -/
def createEntity (s : State) (req : CreateEntityRequest) : State × Option Entity :=
  let capacity := if req.defaultCapacity = 0 then 5 else req.defaultCapacity
  let e : Entity := { id := req.id, title := req.title, type := req.type,
                      employeeID := req.employeeID, defaultCapacity := capacity }
  if entityExists s req.id then (s, none)
  else ({ s with entities := s.entities ++ [e] }, some e)

/-! ### Concrete stores used by witnesses and counterexamples -/

/-- A person entity used by several concrete stores. -/
def aliceEntity : Entity :=
  { id := "alice@example.com", title := "Alice", type := EntityType.person,
    employeeID := none, defaultCapacity := 2 }

/-- Store for the C2 demonstration: alice has effective capacity 2 and one
assignment of weight 3 on day 0. -/
def demoState2 : State :=
  { entities := [aliceEntity]
    members := []
    overrides := []
    loads := [{ id := 1, externalID := some "ext-1", title := "review",
                source := some "seed", date := 0 }]
    assignments := [{ loadID := 1, personEmail := "alice@example.com", weight := 3 }]
    nextLoadID := 2 }

/-- Store for the C3 witness: alice exists with no loads. -/
def demoState3 : State :=
  { entities := [aliceEntity]
    members := []
    overrides := []
    loads := []
    assignments := []
    nextLoadID := 1 }

/-- Empty store used by the repository-level witnesses and counterexamples. -/
def demoState4 : State :=
  { entities := [], members := [], overrides := [], loads := [], assignments := [],
    nextLoadID := 1 }

/-- First request of the C4 witness. -/
def c4Input1 : LoadInput :=
  { externalID := some "ext-4", title := "first", source := some "crm",
    url := some "u1", date := 10 }

/-- Second request of the C4 witness. -/
def c4Input2 : LoadInput :=
  { externalID := some "ext-4", title := "second", source := some "gcal",
    url := some "u2", date := 11 }

/-- Assignments of the C4 witness requests. -/
def c4Asgs1 : List Assignment :=
  [{ loadID := 0, personEmail := "bob@example.com", weight := 2 }]

/-- Assignments of the second C4 witness request. -/
def c4Asgs2 : List Assignment :=
  [{ loadID := 0, personEmail := "carol@example.com", weight := 1 }]

/-- A person entity with default capacity 5, used by the C5 store. -/
def dinaEntity : Entity :=
  { id := "dina@example.com", title := "Dina", type := EntityType.person,
    employeeID := none, defaultCapacity := 5 }

/-- Store for the C5 counterexample and witness: just dina. -/
def demoState5 : State :=
  { entities := [dinaEntity], members := [], overrides := [], loads := [],
    assignments := [], nextLoadID := 1 }

/-- The C5 counterexample request: a valid new default capacity together with
one override whose date string is malformed. -/
def c5Request : UpdateCapacityRequest :=
  { defaultCapacity := some 7, dateOverrides := [{ date := "bad", capacity := 3 }] }

/-- Store for the C6 witness: alice (default capacity 2) has one capacity
override of 7 on day 5. -/
def demoState6 : State :=
  { entities := [aliceEntity]
    members := []
    overrides := [{ entityID := "alice@example.com", date := 5, capacity := 7 }]
    loads := []
    assignments := []
    nextLoadID := 1 }

/-- Store for the C7 witness: group "eng" whose only member bob carries the
only assignment (weight 3 on day 5). -/
def demoState7 : State :=
  { entities := [{ id := "bob@example.com", title := "Bob", type := EntityType.person,
                   employeeID := none, defaultCapacity := 5 },
                 { id := "eng", title := "Engineering", type := EntityType.group,
                   employeeID := none, defaultCapacity := 10 }]
    members := [{ groupID := "eng", personEmail := "bob@example.com" }]
    overrides := []
    loads := [{ id := 1, externalID := some "ext-7", title := "migration",
                source := some "seed", date := 5 }]
    assignments := [{ loadID := 1, personEmail := "bob@example.com", weight := 3 }]
    nextLoadID := 2 }

/-- The C8 counterexample request: one assignee with a negative weight, which
no validator tag and no service check rejects. -/
def c8Request : UpsertLoadRequest :=
  { externalID := "ext-8", title := "audit", source := "crm", url := "u",
    date := "2026-01-15", assignees := [{ email := "bob@example.com", weight := -2 }] }

/-- The C8 witness upsert request: weights 0 (defaulted to 1) and 2. -/
def c8WitnessReq : UpsertLoadRequest :=
  { externalID := "ext-8w", title := "audit", source := "crm", url := "u",
    date := "2026-01-15",
    assignees := [{ email := "bob@example.com", weight := 0 },
                  { email := "carol@example.com", weight := 2 }] }

/-- The C8 witness add-assignees request. -/
def c8AddReq : AddAssigneeRequest :=
  { assignees := [{ email := "erin@example.com", weight := 0 }] }

/-- The C10 witness request: default capacity omitted (zero value). -/
def c10Req : CreateEntityRequest :=
  { id := "frank@example.com", title := "Frank", type := EntityType.person,
    employeeID := none, defaultCapacity := 0 }

/-- The entity the C10 witness request is expected to store. -/
def frankEntity : Entity :=
  { id := "frank@example.com", title := "Frank", type := EntityType.person,
    employeeID := none, defaultCapacity := 5 }

/-! ### Generic list lemmas -/

theorem sum_map_zero {α : Type} (xs : List α) : (xs.map (fun _ => (0 : ℚ))).sum = 0 := by
  induction xs with
  | nil => rfl
  | cons x t ih => simp [ih]

theorem sum_map_add {α : Type} (f g : α → ℚ) (xs : List α) :
    (xs.map (fun x => f x + g x)).sum = (xs.map f).sum + (xs.map g).sum := by
  induction xs with
  | nil => simp
  | cons x t ih => simp [ih]; ring

theorem list_sum_swap {α β : Type} (xs : List α) (ys : List β) (f : α → β → ℚ) :
    (xs.map (fun x => (ys.map (fun y => f x y)).sum)).sum
      = (ys.map (fun y => (xs.map (fun x => f x y)).sum)).sum := by
  induction xs with
  | nil => simp [sum_map_zero]
  | cons x t ih => simp [ih, sum_map_add]

theorem sum_if_push {β : Type} (P : Prop) [Decidable P] (ys : List β) (F : β → ℚ) :
    (ys.map (fun y => if P then F y else 0)).sum = if P then (ys.map F).sum else 0 := by
  by_cases h : P <;> simp [h, sum_map_zero]

theorem sum_eq_zero_of_forall {xs : List ℚ} (h : ∀ x ∈ xs, x = 0) : xs.sum = 0 := by
  induction xs with
  | nil => rfl
  | cons x t ih =>
    simp only [List.sum_cons, h x (List.mem_cons_self x t)]
    rw [ih (fun y hy => h y (List.mem_cons_of_mem x hy))]
    ring

theorem find?_eq_head?_filter {α : Type} (p : α → Bool) (xs : List α) :
    xs.find? p = (xs.filter p).head? := by
  induction xs with
  | nil => rfl
  | cons x t ih =>
    by_cases h : p x
    · rw [List.find?_cons_of_pos _ h, List.filter_cons_of_pos h]
      rfl
    · rw [List.find?_cons_of_neg _ h, List.filter_cons_of_neg h, ih]

theorem filter_map_comm {α β : Type} (f : α → β) (p : β → Bool) (xs : List α) :
    (xs.map f).filter p = (xs.filter (fun x => p (f x))).map f := by
  induction xs with
  | nil => rfl
  | cons x t ih =>
    by_cases h : p (f x) <;> simp [List.filter_cons, h, ih]

theorem eq_singleton_of_mem_of_length_le_one {α : Type} {x : α} {xs : List α}
    (hm : x ∈ xs) (hl : xs.length ≤ 1) : xs = [x] := by
  cases xs with
  | nil => cases hm
  | cons y t =>
    cases t with
    | nil => simp at hm; simp [hm]
    | cons z u => simp at hl

/-! ### Lemmas about the day-map overlay folds -/

theorem foldl_mapInsert_const (xs : List Int) (c : ℚ) :
    ∀ (m0 : Int → Option ℚ) (k : Int),
      (xs.foldl (fun m d => mapInsert m d c) m0) k = if k ∈ xs then some c else m0 k := by
  induction xs with
  | nil => intro m0 k; simp
  | cons x t ih =>
    intro m0 k
    simp only [List.foldl_cons, ih, List.mem_cons]
    by_cases ht : k ∈ t
    · simp [ht]
    · by_cases hx : k = x <;> simp [ht, hx, mapInsert]

theorem foldl_override_not_mem (os : List CapacityOverride) :
    ∀ (m0 : Int → Option ℚ) (k : Int), (∀ o ∈ os, o.date ≠ k) →
      (os.foldl (fun m o => mapInsert m o.date o.capacity) m0) k = m0 k := by
  induction os with
  | nil => intro m0 k _; rfl
  | cons o t ih =>
    intro m0 k h
    simp only [List.foldl_cons]
    rw [ih _ k (fun o' ho' => h o' (List.mem_cons_of_mem o ho'))]
    have hk : k ≠ o.date := fun hk => (h o (List.mem_cons_self o t)) hk.symm
    simp [mapInsert, hk]

theorem foldl_override_unique (os : List CapacityOverride) :
    ∀ (m0 : Int → Option ℚ) (k : Int) (o : CapacityOverride),
      o ∈ os → o.date = k → (∀ o' ∈ os, o'.date = k → o' = o) →
      (os.foldl (fun m o => mapInsert m o.date o.capacity) m0) k = some o.capacity := by
  induction os with
  | nil => intro m0 k o hm; cases hm
  | cons x t ih =>
    intro m0 k o hm hd hu
    simp only [List.foldl_cons]
    by_cases hmem : ∃ o' ∈ t, o'.date = k
    · obtain ⟨o', ho', hd'⟩ := hmem
      have : o' = o := hu o' (List.mem_cons_of_mem x ho') hd'
      subst this
      exact ih _ k o' ho' hd' (fun y hy hyk => hu y (List.mem_cons_of_mem x hy) hyk)
    · push_neg at hmem
      have hox : o = x := by
        rcases List.mem_cons.mp hm with h | h
        · exact h
        · exact absurd hd (hmem o h)
      subst hox
      rw [foldl_override_not_mem t _ k hmem]
      simp [mapInsert, hd]

/-! ### Lemmas about the day range -/

theorem mem_dayRangeAux (n : Nat) : ∀ (s d : Int), d ∈ dayRangeAux n s ↔ s ≤ d ∧ d < s + n := by
  induction n with
  | zero =>
    intro s d
    simp [dayRangeAux]
  | succ n ih =>
    intro s d
    simp only [dayRangeAux, List.mem_cons, ih (s + 1)]
    omega

theorem chain'_dayRangeAux (n : Nat) :
    ∀ s : Int, List.Chain' (fun a b : Int => a < b) (dayRangeAux n s) := by
  induction n with
  | zero => intro s; exact List.chain'_nil
  | succ n ih =>
    intro s
    refine List.chain'_cons'.mpr ⟨?_, ih (s + 1)⟩
    intro y hy
    cases n with
    | zero => simp [dayRangeAux] at hy
    | succ m =>
      simp [dayRangeAux] at hy
      omega

theorem mem_dayRange (start endD d : Int) :
    d ∈ dayRange start endD ↔ start ≤ d ∧ d ≤ endD := by
  rw [dayRange, mem_dayRangeAux]
  omega

theorem chain'_dayRange (start endD : Int) :
    List.Chain' (fun a b : Int => a < b) (dayRange start endD) :=
  chain'_dayRangeAux _ _

/-- Numeric severity of the ladder as a step function of the ratio. -/
theorem colorLevel_ratioColor (r : ℚ) :
    colorLevel (ratioColor r) =
      if 1 < r then 6 else if 0.8 < r then 5 else if 0.6 < r then 4
      else if 0.4 < r then 3 else if 0.2 < r then 2 else if 0 < r then 1 else 0 := by
  simp only [ratioColor]
  split_ifs <;> rfl

/-! ## Claim theorems -/

/-- C1: for every (load, capacity) pair the heatmap colour is a deterministic
function; with capacity > 0 it is exactly the top-down strict-greater-than
ladder of §4.3 on ratio = load/capacity, the resulting severity bucket is
monotonically non-decreasing in the ratio, and with capacity = 0 a positive
load lands in the same blood-red bucket as ratio > 1.0 regardless of its
magnitude while load = 0 is neutral gray. -/
theorem c1_color_thresholds :
    (∀ load capacity : ℚ, 0 < capacity →
        getHeatmapColor load capacity = ratioColor (load / capacity)) ∧
    (∀ r₁ r₂ : ℚ, r₁ ≤ r₂ → colorLevel (ratioColor r₁) ≤ colorLevel (ratioColor r₂)) ∧
    (∀ load r : ℚ, 0 < load → 1 < r → getHeatmapColor load 0 = ratioColor r) ∧
    getHeatmapColor 0 0 = "#e5e7eb" := by
  refine ⟨?_, ?_, ?_, ?_⟩
  · intro load capacity hc
    simp only [getHeatmapColor, ratioColor, if_neg hc.ne']
  · intro r₁ r₂ h
    rw [colorLevel_ratioColor, colorLevel_ratioColor]
    split_ifs <;> first | omega | linarith
  · intro load r hl hr
    simp only [getHeatmapColor, ratioColor, eq_self_iff_true, if_true]
    rw [if_pos hl, if_pos hr]
  · rfl

/-- Witness for C1 at concrete inputs. -/
theorem c1_witness :
    (0 < (5 : ℚ) ∧ getHeatmapColor 6 5 = ratioColor (6 / 5)) ∧
    ((1 : ℚ) / 2 ≤ (3 : ℚ) / 4 ∧
      colorLevel (ratioColor (1 / 2)) ≤ colorLevel (ratioColor (3 / 4))) ∧
    (0 < (3 : ℚ) ∧ 1 < (2 : ℚ) ∧ getHeatmapColor 3 0 = ratioColor 2) :=
  ⟨⟨by norm_num, c1_color_thresholds.1 6 5 (by norm_num)⟩,
   ⟨by norm_num, c1_color_thresholds.2.1 (1 / 2) (3 / 4) (by norm_num)⟩,
   ⟨by norm_num, by norm_num, c1_color_thresholds.2.2.1 3 2 (by norm_num) (by norm_num)⟩⟩

/-! ### Zero-aggregate lemmas -/

theorem personLoadOnDate_eq_zero {s : State} {email : String} {d : Int}
    (h : ∀ a ∈ s.assignments, ∀ l ∈ s.loads,
      l.id = a.loadID → l.date = d → a.personEmail ≠ email) :
    personLoadOnDate s email d = 0 := by
  unfold personLoadOnDate
  apply sum_eq_zero_of_forall
  intro x hx
  simp only [List.mem_map] at hx
  obtain ⟨l, hl, rfl⟩ := hx
  apply sum_eq_zero_of_forall
  intro y hy
  simp only [List.mem_map] at hy
  obtain ⟨a, ha, rfl⟩ := hy
  by_cases hc : l.id = a.loadID ∧ a.personEmail = email ∧ l.date = d
  · exact absurd hc.2.1 (h a ha l hl hc.1 hc.2.2)
  · simp [hc]

theorem groupLoadOnDate_eq_zero {s : State} {g : String} {d : Int}
    (h : ∀ a ∈ s.assignments, ∀ l ∈ s.loads,
      l.id = a.loadID → l.date = d → a.personEmail ∉ membersOf s g) :
    groupLoadOnDate s g d = 0 := by
  unfold groupLoadOnDate
  apply sum_eq_zero_of_forall
  intro x hx
  simp only [List.mem_map] at hx
  obtain ⟨l, hl, rfl⟩ := hx
  apply sum_eq_zero_of_forall
  intro y hy
  simp only [List.mem_map] at hy
  obtain ⟨a, ha, rfl⟩ := hy
  apply sum_eq_zero_of_forall
  intro z hz
  simp only [List.mem_map] at hz
  obtain ⟨gm, hgm, rfl⟩ := hz
  by_cases hc : l.id = a.loadID ∧ a.personEmail = gm.personEmail ∧
      gm.groupID = g ∧ l.date = d
  · exfalso
    apply h a ha l hl hc.1 hc.2.2.2
    refine List.mem_map.mpr ⟨gm, List.mem_filter.mpr ⟨hgm, ?_⟩, hc.2.1.symm⟩
    exact beq_iff_eq.mpr hc.2.2.1
  · simp [hc]

/-- The dates of the built day records are exactly the stepped range. -/
theorem map_date_buildHeatmapDays (loads : Int → ℚ) (caps : Int → Option ℚ)
    (start endD : Int) :
    (buildHeatmapDays loads caps start endD).map HeatmapDay.date = dayRange start endD := by
  simp [buildHeatmapDays, List.map_map, Function.comp_def]

/-- C2 (code-bug demonstration): with a webhook URL configured and alice
overloaded (load 3 > capacity 2) on day 0, `CheckAndAlert` invoked with the
date equal to today (day 0) attempts the webhook POST.  The spec, the claim
and the code's own comment say a date that is not strictly in the future is
skipped; the code's guard `date.Before(today)` lets today through. -/
theorem c2_alert_fires_on_today :
    checkAndAlert "https://hook.example" demoState2 "alice@example.com" 0 0
      = some { personEmail := "alice@example.com", date := 0, load := 3, capacity := 2 } := by
  norm_num [checkAndAlert, demoState2, aliceEntity, getPersonLoadForDate,
    personLoadOnDate, getEffectiveCapacity, findEntity]
  intro h
  exact absurd h (by decide)

/-- C3: for every existing entity, GetHeatmapData returns one day record per
calendar day of the window [today − 1 calendar month, today + 6 calendar
months], both endpoints inclusive, in ascending date order; each record's
colour is the thresholding function of that day's load and capacity, and a day
on which the entity has no assignments carries load 0. -/
theorem c3_heatmap_window (s : State) (entityID : String) (today : Int) (e : Entity)
    (he : findEntity s entityID = some e) :
    ∃ days : List HeatmapDay,
      getHeatmapData s entityID today = some { entity := e, days := days } ∧
      (∀ d : Int, (goAddMonths today (-1) ≤ d ∧ d ≤ goAddMonths today 6) ↔
        d ∈ days.map HeatmapDay.date) ∧
      List.Chain' (fun a b : Int => a < b) (days.map HeatmapDay.date) ∧
      (∀ hd ∈ days, hd.color = getHeatmapColor hd.load hd.capacity) ∧
      (∀ hd ∈ days, entityHasNoAssignmentsOn s entityID e.type hd.date → hd.load = 0) := by
  have hcaps : ∃ caps, getCapacitiesForRange s entityID (goAddMonths today (-1))
      (goAddMonths today 6) = some caps := by
    unfold getCapacitiesForRange
    rw [he]
    exact ⟨_, rfl⟩
  obtain ⟨caps, hcaps⟩ := hcaps
  refine ⟨buildHeatmapDays (entityLoads s entityID e.type (goAddMonths today (-1))
      (goAddMonths today 6)) caps (goAddMonths today (-1)) (goAddMonths today 6),
    ?_, ?_, ?_, ?_, ?_⟩
  · simp only [getHeatmapData, he, hcaps]
  · intro d
    rw [map_date_buildHeatmapDays, mem_dayRange]
  · rw [map_date_buildHeatmapDays]
    exact chain'_dayRange _ _
  · intro hd hmem
    simp only [buildHeatmapDays, List.mem_map] at hmem
    obtain ⟨d, _, rfl⟩ := hmem
    rfl
  · intro hd hmem hno
    simp only [buildHeatmapDays, List.mem_map] at hmem
    obtain ⟨d, _, rfl⟩ := hmem
    simp only
    cases hty : e.type with
    | person =>
      rw [hty] at hno
      simp only [entityLoads, hty, getPersonLoadForDateRange]
      split
      · exact personLoadOnDate_eq_zero hno
      · rfl
    | group =>
      rw [hty] at hno
      simp only [entityLoads, hty, getGroupLoadForDateRange]
      split
      · exact groupLoadOnDate_eq_zero hno
      · rfl

/-- Witness for C3: the heatmap window of alice around day 20000. -/
theorem c3_witness :
    ∃ days : List HeatmapDay,
      getHeatmapData demoState3 "alice@example.com" 20000
        = some { entity := aliceEntity, days := days } ∧
      (∀ d : Int, (goAddMonths 20000 (-1) ≤ d ∧ d ≤ goAddMonths 20000 6) ↔
        d ∈ days.map HeatmapDay.date) ∧
      List.Chain' (fun a b : Int => a < b) (days.map HeatmapDay.date) ∧
      (∀ hd ∈ days, hd.color = getHeatmapColor hd.load hd.capacity) ∧
      (∀ hd ∈ days, entityHasNoAssignmentsOn demoState3 "alice@example.com"
        aliceEntity.type hd.date → hd.load = 0) :=
  c3_heatmap_window demoState3 "alice@example.com" 20000 aliceEntity rfl

/-- C6: for every existing entity and every date range [start, end] with
start ≤ end, GetCapacitiesForRange returns a map whose keyed entries are
exactly the calendar days of the inclusive range (no gaps), each day holding
the default capacity unless an override row exists for that day, in which case
the override value; the call never fails merely because overrides are absent.
The Nodup hypothesis is the `(entity_id, date)` primary key of the
`capacity_overrides` table. -/
theorem c6_capacities_range (s : State) (entityID : String) (e : Entity) (start endD : Int)
    (he : findEntity s entityID = some e)
    (hnd : (s.overrides.map (fun o => (o.entityID, o.date))).Nodup)
    (hrange : start ≤ endD) :
    ∃ m, getCapacitiesForRange s entityID start endD = some m ∧
      (∀ d : Int, (start ≤ d ∧ d ≤ endD) ↔ (m d).isSome = true) ∧
      (∀ d : Int, start ≤ d → d ≤ endD →
        ((∀ o ∈ s.overrides, ¬(o.entityID = entityID ∧ o.date = d)) →
            m d = some e.defaultCapacity) ∧
        (∀ o ∈ s.overrides, o.entityID = entityID → o.date = d →
            m d = some o.capacity)) := by
  have hsome : getCapacitiesForRange s entityID start endD
      = some ((getOverridesRange s entityID start endD).foldl
          (fun m o => mapInsert m o.date o.capacity)
          ((dayRange start endD).foldl
            (fun m d => mapInsert m d e.defaultCapacity) (fun _ => none))) := by
    unfold getCapacitiesForRange
    rw [he]
  have hmem_os : ∀ o ∈ getOverridesRange s entityID start endD,
      o ∈ s.overrides ∧ o.entityID = entityID ∧ start ≤ o.date ∧ o.date ≤ endD := by
    intro o ho
    unfold getOverridesRange at ho
    simp only [List.mem_filter, Bool.and_eq_true, beq_iff_eq, decide_eq_true_eq] at ho
    exact ⟨ho.1, ho.2.1.1, ho.2.1.2, ho.2.2⟩
  have huq : ∀ (d : Int) (o : CapacityOverride),
      o ∈ getOverridesRange s entityID start endD → o.date = d →
      ∀ o' ∈ getOverridesRange s entityID start endD, o'.date = d → o' = o := by
    intro d o ho hod o' ho' hod'
    have h1 := hmem_os o ho
    have h2 := hmem_os o' ho'
    refine List.inj_on_of_nodup_map hnd h2.1 h1.1 ?_
    rw [h1.2.1, h2.2.1, hod, hod']
  refine ⟨_, hsome, ?_, ?_⟩
  · intro d
    by_cases hin : start ≤ d ∧ d ≤ endD
    · simp only [hin, true_iff]
      by_cases hov : ∃ o ∈ getOverridesRange s entityID start endD, o.date = d
      · obtain ⟨o, ho, hod⟩ := hov
        rw [foldl_override_unique _ _ d o ho hod (huq d o ho hod)]
        simp
      · push_neg at hov
        rw [foldl_override_not_mem _ _ d hov, foldl_mapInsert_const]
        simp [mem_dayRange, hin]
    · have hnotmem : ∀ o ∈ getOverridesRange s entityID start endD, o.date ≠ d := by
        intro o ho hod
        have h1 := hmem_os o ho
        exact hin ⟨hod ▸ h1.2.2.1, hod ▸ h1.2.2.2⟩
      rw [foldl_override_not_mem _ _ d hnotmem, foldl_mapInsert_const]
      have : d ∉ dayRange start endD := fun hd => hin ((mem_dayRange start endD d).mp hd)
      simp [this, hin]
  · intro d hd1 hd2
    constructor
    · intro hno
      have hnotmem : ∀ o ∈ getOverridesRange s entityID start endD, o.date ≠ d := by
        intro o ho hod
        have h1 := hmem_os o ho
        exact hno o h1.1 ⟨h1.2.1, hod⟩
      rw [foldl_override_not_mem _ _ d hnotmem, foldl_mapInsert_const]
      simp [mem_dayRange, hd1, hd2]
    · intro o ho hoid hod
      have hos : o ∈ getOverridesRange s entityID start endD := by
        unfold getOverridesRange
        simp only [List.mem_filter, Bool.and_eq_true, beq_iff_eq, decide_eq_true_eq]
        exact ⟨ho, ⟨hoid, hod ▸ hd1⟩, hod ▸ hd2⟩
      rw [foldl_override_unique _ _ d o hos hod (huq d o hos hod)]

/-- Witness for C6: alice's capacities over days 4..6 with an override on
day 5. -/
theorem c6_witness :
    ∃ m, getCapacitiesForRange demoState6 "alice@example.com" 4 6 = some m ∧
      (∀ d : Int, (4 ≤ d ∧ d ≤ 6) ↔ (m d).isSome = true) ∧
      (∀ d : Int, 4 ≤ d → d ≤ 6 →
        ((∀ o ∈ demoState6.overrides, ¬(o.entityID = "alice@example.com" ∧ o.date = d)) →
            m d = some aliceEntity.defaultCapacity) ∧
        (∀ o ∈ demoState6.overrides, o.entityID = "alice@example.com" → o.date = d →
            m d = some o.capacity)) :=
  c6_capacities_range demoState6 "alice@example.com" aliceEntity 4 6 rfl
    (by simp [demoState6]) (by norm_num)

/-- Congruence of mapped sums under pointwise equality. -/
theorem map_sum_congr {α : Type} (xs : List α) (f g : α → ℚ) (h : ∀ x, f x = g x) :
    (xs.map f).sum = (xs.map g).sum := by
  have hfg : f = g := funext h
  rw [hfg]

/-- Summing a membership-guarded quantity over all group-member rows equals
summing it over the rows of the group. -/
theorem sum_members_guard (ms : List GroupMember) (g : String) (F : String → ℚ) :
    (ms.map (fun gm => if gm.groupID = g then F gm.personEmail else 0)).sum
      = (((ms.filter (fun gm => gm.groupID == g)).map
          (fun gm => gm.personEmail)).map F).sum := by
  induction ms with
  | nil => rfl
  | cons gm t ih =>
    by_cases h : gm.groupID = g
    · simp [List.filter_cons, h, ih]
    · simp [List.filter_cons, h, ih]

/-- The group aggregate is the sum, over current members, of the per-person
single-day aggregate. -/
theorem groupLoadOnDate_eq_sum_members (s : State) (g : String) (d : Int) :
    groupLoadOnDate s g d
      = ((membersOf s g).map (fun q => personLoadOnDate s q d)).sum := by
  have estep : (fun (l : Load) =>
      (s.assignments.map (fun a =>
        (s.members.map (fun gm =>
          if l.id = a.loadID ∧ a.personEmail = gm.personEmail ∧ gm.groupID = g ∧ l.date = d
          then a.weight else 0)).sum)).sum)
      = (fun (l : Load) =>
      (s.members.map (fun gm =>
        (s.assignments.map (fun a =>
          if gm.groupID = g then
            (if l.id = a.loadID ∧ a.personEmail = gm.personEmail ∧ l.date = d
             then a.weight else 0)
          else 0)).sum)).sum) := by
    funext l
    rw [list_sum_swap]
    apply map_sum_congr
    intro gm
    apply map_sum_congr
    intro a
    by_cases h1 : gm.groupID = g <;> simp [h1]
  have estep2 : (fun (gm : GroupMember) =>
      (s.loads.map (fun l =>
        (s.assignments.map (fun a =>
          if gm.groupID = g then
            (if l.id = a.loadID ∧ a.personEmail = gm.personEmail ∧ l.date = d
             then a.weight else 0)
          else 0)).sum)).sum)
      = (fun (gm : GroupMember) =>
          if gm.groupID = g then personLoadOnDate s gm.personEmail d else 0) := by
    funext gm
    by_cases h1 : gm.groupID = g
    · simp only [h1, eq_self_iff_true, if_true]
      rfl
    · simp [h1, sum_map_zero]
  unfold groupLoadOnDate
  rw [estep, list_sum_swap s.loads s.members
    (fun l gm => (s.assignments.map (fun a =>
      if gm.groupID = g then
        (if l.id = a.loadID ∧ a.personEmail = gm.personEmail ∧ l.date = d
         then a.weight else 0)
      else 0)).sum), estep2]
  unfold membersOf
  exact sum_members_guard s.members g (fun q => personLoadOnDate s q d)

/-- Removing a member only shrinks the member list of that group. -/
theorem membersOf_removeMember (s : State) (g p : String) :
    membersOf (removeMember s g p) g = (membersOf s g).filter (fun q => ¬ q = p) := by
  unfold membersOf removeMember
  rw [filter_map_comm, List.filter_filter, List.filter_filter]
  congr 1
  apply List.filter_congr
  intro gm _
  by_cases h1 : gm.groupID = g <;> by_cases h2 : gm.personEmail = p <;> simp [h1, h2]

/-- Removing a member leaves loads and assignments untouched, so the
per-person aggregate is unchanged. -/
theorem personLoadOnDate_removeMember (s : State) (g p q : String) (d : Int) :
    personLoadOnDate (removeMember s g p) q d = personLoadOnDate s q d := rfl

/-- C7: for every group and day in a queried range, the group's aggregated
load is the sum of the assignment weights of the group's current members on
that day, membership being evaluated at read time: removing a member
immediately removes their contribution, and a day on which only the removed
person was loaded totals 0. -/
theorem c7_group_membership_read_time :
    (∀ (s : State) (g : String) (start endD d : Int), start ≤ d → d ≤ endD →
      getGroupLoadForDateRange s g start endD d
        = ((membersOf s g).map (fun q => personLoadOnDate s q d)).sum) ∧
    (∀ (s : State) (g p : String),
      membersOf (removeMember s g p) g = (membersOf s g).filter (fun q => ¬ q = p)) ∧
    (∀ (s : State) (g p : String) (start endD d : Int), start ≤ d → d ≤ endD →
      (∀ q ∈ membersOf s g, ¬ q = p → personLoadOnDate s q d = 0) →
      getGroupLoadForDateRange (removeMember s g p) g start endD d = 0) := by
  refine ⟨?_, ?_, ?_⟩
  · intro s g start endD d h1 h2
    unfold getGroupLoadForDateRange
    rw [if_pos ⟨h1, h2⟩]
    exact groupLoadOnDate_eq_sum_members s g d
  · exact membersOf_removeMember
  · intro s g p start endD d h1 h2 hz
    unfold getGroupLoadForDateRange
    rw [if_pos ⟨h1, h2⟩, groupLoadOnDate_eq_sum_members, membersOf_removeMember]
    apply sum_eq_zero_of_forall
    intro x hx
    simp only [List.mem_map] at hx
    obtain ⟨q, hq, rfl⟩ := hx
    rw [List.mem_filter] at hq
    rw [personLoadOnDate_removeMember]
    exact hz q hq.1 (by simpa using hq.2)

/-- Witness for C7 on a concrete store: the three parts instantiated at group
"eng", member bob, day 5 of range [4, 6]. -/
theorem c7_witness :
    (getGroupLoadForDateRange demoState7 "eng" 4 6 5
      = ((membersOf demoState7 "eng").map
          (fun q => personLoadOnDate demoState7 q 5)).sum) ∧
    (membersOf (removeMember demoState7 "eng" "bob@example.com") "eng"
      = (membersOf demoState7 "eng").filter (fun q => ¬ q = "bob@example.com")) ∧
    (getGroupLoadForDateRange (removeMember demoState7 "eng" "bob@example.com")
      "eng" 4 6 5 = 0) :=
  ⟨c7_group_membership_read_time.1 demoState7 "eng" 4 6 5 (by norm_num) (by norm_num),
   c7_group_membership_read_time.2.1 demoState7 "eng" "bob@example.com",
   c7_group_membership_read_time.2.2 demoState7 "eng" "bob@example.com" 4 6 5
     (by norm_num) (by norm_num)
     (by
       intro q hq hne
       simp [membersOf, demoState7] at hq
       exact absurd hq hne)⟩

/-! ### Lemmas about the upsert-by-external-id transaction -/

/-- Replacing the assignments of a load leaves, for that load, exactly the
inserted rows. -/
theorem filter_replaceAssignments (s : State) (k : Int) (asgs : List Assignment) :
    (replaceAssignments s k asgs).assignments.filter (fun a => a.loadID == k)
      = asgs.map (withLoadID k) := by
  unfold replaceAssignments
  rw [List.filter_append]
  have h1 : (s.assignments.filter (fun a => ¬ a.loadID = k)).filter
      (fun a => a.loadID == k) = [] := by
    rw [List.filter_filter]
    apply List.filter_eq_nil_iff.mpr
    intro a _
    by_cases h : a.loadID = k <;> simp [h]
  have h2 : (asgs.map (withLoadID k)).filter (fun a => a.loadID == k)
      = asgs.map (withLoadID k) := by
    apply List.filter_eq_self.mpr
    intro a ha
    simp only [List.mem_map] at ha
    obtain ⟨b, _, rfl⟩ := ha
    simp [withLoadID]
  rw [h1, h2, List.nil_append]

/-- Replacing assignments does not touch the `loads` table. -/
theorem loadsWithExt_replaceAssignments (s : State) (k : Int) (asgs : List Assignment)
    (ext : String) :
    loadsWithExt (replaceAssignments s k asgs) ext = loadsWithExt s ext := rfl

/-- After the row upsert for `ext`, assuming the UNIQUE constraint held (at
most one row with that external id), exactly one row carries `ext`, holding
the request's title, source and date and the returned id. -/
theorem loadsWithExt_upsertLoadRow (s : State) (ext t : String) (src u : Option String)
    (d : Int) (huniq : (loadsWithExt s ext).length ≤ 1) :
    loadsWithExt (upsertLoadRow s
        { externalID := some ext, title := t, source := src, url := u, date := d }).1 ext
      = [{ id := (upsertLoadRow s
              { externalID := some ext, title := t, source := src, url := u,
                date := d }).2,
            externalID := some ext, title := t, source := src, date := d }] := by
  unfold upsertLoadRow loadsWithExt
  dsimp only
  split
  case h_2 x hf =>
    simp only [List.filter_append]
    have hnil : s.loads.filter (fun l => l.externalID == some ext) = [] := by
      apply List.filter_eq_nil_iff.mpr
      intro l hl
      exact List.find?_eq_none.mp hf l hl
    rw [hnil]
    simp
  case h_1 x l0 hf =>
    have hl0mem : l0 ∈ s.loads := List.mem_of_find?_eq_some hf
    have hl0ext : l0.externalID = some ext := by
      have := List.find?_some hf
      simpa using this
    have hfil : s.loads.filter (fun l => l.externalID == some ext) = [l0] := by
      apply eq_singleton_of_mem_of_length_le_one
      · exact List.mem_filter.mpr ⟨hl0mem, by simp [hl0ext]⟩
      · exact huniq
    simp only [filter_map_comm]
    have hcong : s.loads.filter (fun l =>
        ((if l.id = l0.id then
            ({ l with title := t, source := src, date := d } : Load)
          else l).externalID == some ext))
        = s.loads.filter (fun l => l.externalID == some ext) := by
      apply List.filter_congr
      intro l _
      by_cases h : l.id = l0.id <;> simp [h]
    rw [hcong, hfil]
    simp [hl0ext]

/-- C4: two consecutive upserts carrying the same external id leave exactly one
load row for that id, holding the second request's title, source and date, and
the load's assignment set is fully replaced (delete-then-insert) by the second
request's assignments; in particular an empty second assignment list clears
all assignments of the load.  The length hypothesis is the UNIQUE constraint
on `loads.external_id`. -/
theorem c4_upsert_replaces (s : State) (ext t1 t2 : String) (src1 src2 u1 u2 : Option String)
    (d1 d2 : Int) (a1 a2 : List Assignment) (s1 : State) (id1 : Int) (s2 : State) (id2 : Int)
    (huniq : (loadsWithExt s ext).length ≤ 1)
    (h1 : upsertByExternalID s
      { externalID := some ext, title := t1, source := src1, url := u1, date := d1 }
      a1 = (s1, id1))
    (h2 : upsertByExternalID s1
      { externalID := some ext, title := t2, source := src2, url := u2, date := d2 }
      a2 = (s2, id2)) :
    loadsWithExt s2 ext
      = [{ id := id2, externalID := some ext, title := t2, source := src2, date := d2 }] ∧
    s2.assignments.filter (fun a => a.loadID == id2) = a2.map (withLoadID id2) ∧
    (a2 = [] → s2.assignments.filter (fun a => a.loadID == id2) = []) := by
  unfold upsertByExternalID at h1 h2
  simp only [Prod.mk.injEq] at h1 h2
  obtain ⟨hs1, hid1⟩ := h1
  obtain ⟨hs2, hid2⟩ := h2
  have huniq1 : (loadsWithExt s1 ext).length ≤ 1 := by
    rw [← hs1, loadsWithExt_replaceAssignments,
      loadsWithExt_upsertLoadRow s ext t1 src1 u1 d1 huniq]
    simp
  have hload : loadsWithExt s2 ext
      = [{ id := id2, externalID := some ext, title := t2, source := src2, date := d2 }] := by
    rw [← hs2, loadsWithExt_replaceAssignments,
      loadsWithExt_upsertLoadRow s1 ext t2 src2 u2 d2 huniq1, hid2]
  refine ⟨hload, ?_, ?_⟩
  · rw [← hs2, hid2, filter_replaceAssignments]
  · intro ha2
    subst ha2
    rw [← hs2, hid2, filter_replaceAssignments]
    rfl

/-- Witness for C4: two upserts of external id "ext-4" on an empty store; the
second (carol, weight 1) fully replaces the first (bob, weight 2). -/
theorem c4_witness :
    loadsWithExt (upsertByExternalID
        (upsertByExternalID demoState4 c4Input1 c4Asgs1).1 c4Input2 c4Asgs2).1 "ext-4"
      = [{ id := (upsertByExternalID
              (upsertByExternalID demoState4 c4Input1 c4Asgs1).1 c4Input2 c4Asgs2).2,
            externalID := some "ext-4", title := "second", source := some "gcal",
            date := 11 }] ∧
    (upsertByExternalID
        (upsertByExternalID demoState4 c4Input1 c4Asgs1).1 c4Input2 c4Asgs2).1.assignments.filter
      (fun a => a.loadID == (upsertByExternalID
        (upsertByExternalID demoState4 c4Input1 c4Asgs1).1 c4Input2 c4Asgs2).2)
      = c4Asgs2.map (withLoadID (upsertByExternalID
          (upsertByExternalID demoState4 c4Input1 c4Asgs1).1 c4Input2 c4Asgs2).2) := by
  have h := c4_upsert_replaces demoState4 "ext-4" "first" "second" (some "crm") (some "gcal")
    (some "u1") (some "u2") 10 11 c4Asgs1 c4Asgs2
    (upsertByExternalID demoState4 c4Input1 c4Asgs1).1
    (upsertByExternalID demoState4 c4Input1 c4Asgs1).2
    (upsertByExternalID
      (upsertByExternalID demoState4 c4Input1 c4Asgs1).1 c4Input2 c4Asgs2).1
    (upsertByExternalID
      (upsertByExternalID demoState4 c4Input1 c4Asgs1).1 c4Input2 c4Asgs2).2
    (by simp [loadsWithExt, demoState4]) rfl rfl
  exact ⟨h.1, h.2.1⟩

/-! ### Lemmas about the capacity-update pipeline -/

/-- Setting an override never touches the entities table. -/
theorem findEntity_setOverride (s : State) (id id' : String) (d : Int) (c : ℚ) :
    findEntity (setOverride s id' d c) id = findEntity s id := by
  unfold setOverride findEntity
  split <;> rfl

theorem entityExists_true_of_findEntity {s : State} {id : String} {e : Entity}
    (h : findEntity s id = some e) : entityExists s id = true := by
  unfold entityExists
  unfold findEntity at h
  have hp := List.find?_some h
  exact List.any_eq_true.mpr ⟨e, List.mem_of_find?_eq_some h, hp⟩

/-- Updating the default capacity preserves which entities exist. -/
theorem find?_isSome_map_capacity (es : List Entity) (id id' : String) (c : ℚ) :
    ((es.map (fun e => if e.id == id' then { e with defaultCapacity := c } else e)).find?
      (fun e => e.id == id)).isSome
      = (es.find? (fun e => e.id == id)).isSome := by
  induction es with
  | nil => rfl
  | cons e t ih =>
    simp only [List.map_cons, List.find?_cons]
    have hup : ((if (e.id == id') = true then { e with defaultCapacity := c } else e).id == id)
        = (e.id == id) := by
      by_cases h : (e.id == id') = true <;> simp [h]
    rw [hup]
    cases hb : (e.id == id)
    · simpa using ih
    · simp

/-- The override loop stopped by an invalid entry: every entry before it is
applied and succeeds, the invalid entry and everything after it contribute
nothing, and the loop reports the error. -/
theorem applyOverrides_partial (entityID : String) (bad : OverrideItem)
    (post : List OverrideItem)
    (hbad : parseDate bad.date = none ∨ bad.capacity < 0) :
    ∀ (pre : List OverrideItem) (s : State),
      (∀ it ∈ pre, (parseDate it.date).isSome = true ∧ 0 ≤ it.capacity) →
      (findEntity s entityID).isSome = true →
      (applyOverrides entityID s pre).2 = none ∧
      (applyOverrides entityID s (pre ++ bad :: post)).1 = (applyOverrides entityID s pre).1 ∧
      (applyOverrides entityID s (pre ++ bad :: post)).2.isSome = true := by
  intro pre
  induction pre with
  | nil =>
    intro s _ hent
    refine ⟨rfl, ?_, ?_⟩
    · rcases hbad with hb | hb
      · simp [applyOverrides, hb]
      · cases hp : parseDate bad.date with
        | none => simp [applyOverrides, hp]
        | some d => simp [applyOverrides, hp, setDateOverride, if_pos hb]
    · rcases hbad with hb | hb
      · simp [applyOverrides, hb]
      · cases hp : parseDate bad.date with
        | none => simp [applyOverrides, hp]
        | some d => simp [applyOverrides, hp, setDateOverride, if_pos hb]
  | cons it rest ih =>
    intro s hpre hent
    have hit := hpre it (List.mem_cons_self it rest)
    obtain ⟨d, hd⟩ := Option.isSome_iff_exists.mp hit.1
    obtain ⟨e, he⟩ := Option.isSome_iff_exists.mp hent
    have hstep : setDateOverride s entityID d it.capacity
        = (setOverride s entityID d it.capacity, none) := by
      unfold setDateOverride
      rw [if_neg (not_lt.mpr hit.2), he]
    have hent' : (findEntity (setOverride s entityID d it.capacity) entityID).isSome
        = true := by
      rw [findEntity_setOverride]
      rw [he]
      rfl
    have ihh := ih (setOverride s entityID d it.capacity)
      (fun x hx => hpre x (List.mem_cons_of_mem it hx)) hent'
    refine ⟨?_, ?_, ?_⟩
    · simp only [applyOverrides, hd, hstep]
      exact ihh.1
    · simp only [List.cons_append, applyOverrides, hd, hstep]
      exact ihh.2.1
    · simp only [List.cons_append, applyOverrides, hd, hstep]
      exact ihh.2.2

/-- C5 (amended): a capacity-update request containing a malformed date or a
negative override capacity fails, and the failing entry itself (and everything
after it) is never written; but the failure is not atomic — the
default-capacity update and every override before the failing entry persist,
so on error the state equals the state of the truncated request, not the
original state. -/
theorem c5_partial_write (s : State) (entityID : String) (dc : Option ℚ)
    (pre post : List OverrideItem) (bad : OverrideItem)
    (hbad : parseDate bad.date = none ∨ bad.capacity < 0)
    (hpre : ∀ it ∈ pre, (parseDate it.date).isSome = true ∧ 0 ≤ it.capacity)
    (hent : (findEntity s entityID).isSome = true)
    (hdc : ∀ c ∈ dc, 0 ≤ c) :
    (updateCapacity s entityID ⟨dc, pre ++ bad :: post⟩).2.isSome = true ∧
    (updateCapacity s entityID ⟨dc, pre ++ bad :: post⟩).1
      = (updateCapacity s entityID ⟨dc, pre⟩).1 ∧
    (updateCapacity s entityID ⟨dc, pre⟩).2 = none := by
  cases dc with
  | none =>
    have h := applyOverrides_partial entityID bad post hbad pre s hpre hent
    exact ⟨h.2.2, h.2.1, h.1⟩
  | some c =>
    have hc : ¬ c < 0 := not_lt.mpr (hdc c rfl)
    obtain ⟨e, he⟩ := Option.isSome_iff_exists.mp hent
    have hex : entityExists s entityID = true := entityExists_true_of_findEntity he
    cases hu : updateDefaultCapacity s entityID c with
    | mk s' err =>
      have hu' := hu
      unfold updateDefaultCapacity at hu'
      rw [if_neg hc, if_pos hex] at hu'
      simp only [Prod.mk.injEq] at hu'
      obtain ⟨hs', herr⟩ := hu'
      subst herr
      have hent' : (findEntity s' entityID).isSome = true := by
        rw [← hs']
        unfold findEntity
        rw [show ({ s with entities := s.entities.map (fun e =>
            if e.id == entityID then { e with defaultCapacity := c } else e) } : State).entities
          = s.entities.map (fun e =>
            if e.id == entityID then { e with defaultCapacity := c } else e) from rfl]
        rw [find?_isSome_map_capacity]
        exact hent
      have h := applyOverrides_partial entityID bad post hbad pre s' hpre hent'
      simp only [updateCapacity, hu]
      exact ⟨h.2.2, h.2.1, h.1⟩

/-- C5 counterexample: the request `c5Request` (new default capacity 7, one
override with malformed date "bad") fails, yet dina's default capacity has
been changed from 5 to 7 — the mutation was not caught before writes began. -/
theorem c5_counterexample :
    (updateCapacity demoState5 "dina@example.com" c5Request).2.isSome = true ∧
    (updateCapacity demoState5 "dina@example.com" c5Request).1.entities
      = [{ id := "dina@example.com", title := "Dina", type := EntityType.person,
            employeeID := none, defaultCapacity := 7 }] ∧
    demoState5.entities
      = [{ id := "dina@example.com", title := "Dina", type := EntityType.person,
            employeeID := none, defaultCapacity := 5 }] ∧
    (7 : ℚ) ≠ 5 := by
  have hp : parseDate "bad" = none := by decide
  refine ⟨?_, ?_, by norm_num [demoState5, dinaEntity], by norm_num⟩
  · norm_num [updateCapacity, updateDefaultCapacity, demoState5, dinaEntity, entityExists,
      applyOverrides, c5Request, hp]
  · norm_num [updateCapacity, updateDefaultCapacity, demoState5, dinaEntity, entityExists,
      applyOverrides, c5Request, hp]

/-- Witness for C5 (amended) at a concrete request: default capacity 7 with a
single malformed override entry. -/
theorem c5_witness :
    (updateCapacity demoState5 "dina@example.com"
      ⟨some 7, [] ++ ({ date := "bad", capacity := 3 } : OverrideItem) :: []⟩).2.isSome = true ∧
    (updateCapacity demoState5 "dina@example.com"
      ⟨some 7, [] ++ ({ date := "bad", capacity := 3 } : OverrideItem) :: []⟩).1
      = (updateCapacity demoState5 "dina@example.com" ⟨some 7, []⟩).1 ∧
    (updateCapacity demoState5 "dina@example.com" ⟨some 7, []⟩).2 = none :=
  c5_partial_write demoState5 "dina@example.com" (some 7) []
    [] { date := "bad", capacity := 3 } (Or.inl (by decide))
    (by intro it hit; cases hit) (by decide)
    (by intro c hc; cases hc; norm_num)

/-! ### Lemmas about the load service -/

/-- Auto-creating missing assignee entities only touches the entities table. -/
theorem assignments_autoCreate (asgs : List AssigneeReq) :
    ∀ s : State, (autoCreateAssignees s asgs).assignments = s.assignments := by
  induction asgs with
  | nil => intro s; rfl
  | cons a t ih =>
    intro s
    unfold autoCreateAssignees at ih ⊢
    simp only [List.foldl_cons]
    rw [ih]
    split <;> rfl

/-- The assignment rows stored for the upserted load are exactly the given
list, rekeyed to the returned load id. -/
theorem filter_upsertByExternalID (s : State) (ld : LoadInput) (asgs : List Assignment) :
    (upsertByExternalID s ld asgs).1.assignments.filter
      (fun a => a.loadID == (upsertByExternalID s ld asgs).2)
      = asgs.map (withLoadID (upsertByExternalID s ld asgs).2) := by
  unfold upsertByExternalID
  exact filter_replaceAssignments _ _ _

/-- C8 (amended): the stored assignment weight is 1.0 when the requested
weight is omitted or zero and the requested weight unchanged otherwise — with
no sign check, so a negative requested weight is stored as-is.  Part one: the
assignments stored by UpsertLoad for the returned load id; part two: the rows
handed to the store by AddAssignees (its repository insert is not under src/
and is modelled from the spec as inserting the given rows). -/
theorem c8_weight_default (s : State) (req : UpsertLoadRequest) (d : Int)
    (hparse : parseDate req.date = some d) :
    (∃ id, (upsertLoad s req).2 = some id ∧
      (upsertLoad s req).1.assignments.filter (fun a => a.loadID == id)
        = req.assignees.map (fun (a : AssigneeReq) =>
            ({ loadID := id, personEmail := a.email,
               weight := if a.weight = 0 then 1 else a.weight } : Assignment))) ∧
    (∀ (loadID : Int) (l : Load) (areq : AddAssigneeRequest),
      s.loads.find? (fun l' => l'.id == loadID) = some l →
      (addAssignees s loadID areq).1.assignments
        = s.assignments ++ areq.assignees.map (fun (a : AssigneeReq) =>
            ({ loadID := loadID, personEmail := a.email,
               weight := if a.weight = 0 then 1 else a.weight } : Assignment))) := by
  constructor
  · unfold upsertLoad
    rw [hparse]
    refine ⟨_, rfl, ?_⟩
    rw [filter_upsertByExternalID, List.map_map]
    rfl
  · intro loadID l areq hfind
    unfold addAssignees
    rw [hfind]
    show (repoAddAssignees (autoCreateAssignees s areq.assignees) loadID _).assignments = _
    unfold repoAddAssignees
    rw [show ∀ (st : State) (x : List Assignment),
        ({ st with assignments := st.assignments ++ x } : State).assignments
          = st.assignments ++ x from fun _ _ => rfl]
    rw [assignments_autoCreate, List.map_map]
    rfl

/-- C8 counterexample: the request `c8Request` carries weight −2; the stored
assignment keeps −2, so the stored weight is not non-negative. -/
theorem c8_counterexample :
    (upsertLoad demoState4 c8Request).1.assignments.map (fun a => a.weight) = [-2] ∧
    ¬ (0 : ℚ) ≤ -2 := by
  have hp : parseDate "2026-01-15" = some 20468 := by decide
  constructor
  · norm_num [upsertLoad, c8Request, hp, autoCreateAssignees, demoState4, entityExists,
      upsertByExternalID, upsertLoadRow, replaceAssignments, withLoadID]
  · norm_num

/-- Witness for C8 (amended): a zero weight is stored as 1, a weight of 2 as
2; the added assignee with omitted weight is stored with weight 1. -/
theorem c8_witness :
    (∃ id, (upsertLoad demoState2 c8WitnessReq).2 = some id ∧
      (upsertLoad demoState2 c8WitnessReq).1.assignments.filter (fun a => a.loadID == id)
        = c8WitnessReq.assignees.map (fun (a : AssigneeReq) =>
            ({ loadID := id, personEmail := a.email,
               weight := if a.weight = 0 then 1 else a.weight } : Assignment))) ∧
    (addAssignees demoState2 1 c8AddReq).1.assignments
      = demoState2.assignments ++ c8AddReq.assignees.map (fun (a : AssigneeReq) =>
          ({ loadID := 1, personEmail := a.email,
             weight := if a.weight = 0 then 1 else a.weight } : Assignment)) :=
  ⟨(c8_weight_default demoState2 c8WitnessReq 20468 (by decide)).1,
   (c8_weight_default demoState2 c8WitnessReq 20468 (by decide)).2 1
     { id := 1, externalID := some "ext-1", title := "review", source := some "seed",
       date := 0 }
     c8AddReq (by decide)⟩

/-- C9: the `url` field of an upsert request has no effect on stored state or
on the returned load id: the loads table has no url column and the upsert
statement never mentions url, so two requests differing only in url produce
identical results, for both the by-email and the by-employee-id endpoint. -/
theorem c9_url_no_effect :
    (∀ (s : State) (req : UpsertLoadRequest) (u1 u2 : String),
      upsertLoad s { req with url := u1 } = upsertLoad s { req with url := u2 }) ∧
    (∀ (s : State) (req : UpsertLoadByEmployeeIDRequest) (u1 u2 : String),
      upsertLoadByEmployeeID s { req with url := u1 }
        = upsertLoadByEmployeeID s { req with url := u2 }) :=
  ⟨fun _ _ _ _ => rfl, fun _ _ _ _ => rfl⟩

/-- C10: CreateEntity replaces a requested default capacity of exactly 0
(which is also what an omitted JSON field arrives as) by 5.0 before storing
the entity, stores any non-zero requested value unchanged, and hence never
stores a zero default capacity. -/
theorem c10_create_entity_capacity (s : State) (req : CreateEntityRequest) (e : Entity)
    (h : (createEntity s req).2 = some e) :
    e ∈ (createEntity s req).1.entities ∧
    (req.defaultCapacity = 0 → e.defaultCapacity = 5) ∧
    (req.defaultCapacity ≠ 0 → e.defaultCapacity = req.defaultCapacity) ∧
    e.defaultCapacity ≠ 0 := by
  unfold createEntity at h ⊢
  by_cases hex : entityExists s req.id = true
  · rw [if_pos hex] at h
    cases h
  · rw [if_neg hex] at h ⊢
    simp only [Option.some.injEq] at h
    subst h
    refine ⟨?_, ?_, ?_, ?_⟩
    · simp
    · intro h0
      simp [h0]
    · intro h0
      simp [h0]
    · by_cases h0 : req.defaultCapacity = 0 <;> simp [h0]

/-- Witness for C10: creating frank with the capacity field omitted (0)
stores capacity 5. -/
theorem c10_witness :
    frankEntity ∈ (createEntity demoState4 c10Req).1.entities ∧
    (c10Req.defaultCapacity = 0 → frankEntity.defaultCapacity = 5) ∧
    (c10Req.defaultCapacity ≠ 0 → frankEntity.defaultCapacity = c10Req.defaultCapacity) ∧
    frankEntity.defaultCapacity ≠ 0 :=
  c10_create_entity_capacity demoState4 c10Req frankEntity
    (by norm_num [createEntity, demoState4, entityExists, c10Req, frankEntity])

end HeatmapCal
